import Mathlib

/-!
Verification of the `wt` worktree manager against its specification.

Strings manipulated by the Go code are embedded as `List Char`; the Go
`strings` package functions used by the source (`Index`, `Contains`,
`HasSuffix`, `TrimPrefix`, `ToLower`) are given executable Lean
counterparts.  The shell-integration code (`init.go`) is embedded
function by function.  Core components whose source is not part of the
repository snapshot (path resolver, lifecycle manager, cleanup engine,
shell handoff) are modelled from the specification, as marked on each
definition.
-/

set_option maxRecDepth 4000

abbrev Str := List Char

/-- Embedding of Go `strings.Index(s, p)` restricted to the found case:
returns the index of the first occurrence of `p` in `s`, or `none`
when `p` does not occur (Go returns `-1`). -/
def strFind (p : Str) : Str → Option Nat
  | [] => if p.isPrefixOf ([] : Str) then some 0 else none
  | c :: rest =>
    if p.isPrefixOf (c :: rest) then some 0
    else (strFind p rest).map (fun n => n + 1)

/-- Embedding of Go `strings.Contains(s, p)`. -/
def goContains (s p : Str) : Bool := (strFind p s).isSome

/-- Embedding of Go `strings.HasSuffix(s, p)`. -/
def goHasSuffix (s p : Str) : Bool := p.isSuffixOf s

/-- Embedding of Go `strings.TrimPrefix(s, p)`. -/
def goTrimPre (s p : Str) : Str := if p.isPrefixOf s then s.drop p.length else s

/-- Number of positions of `s` at which the (nonempty) pattern `p`
occurs; used to state that a configuration file holds exactly one
marker-delimited block. -/
def occCount (p : Str) : Str → Nat
  | [] => 0
  | c :: rest => (if p.isPrefixOf (c :: rest) then 1 else 0) + occCount p rest

/-- `markerStart` from `init.go`. -/
def markerStart : Str := "# >>> wt initialize >>>".toList

/-- `markerEnd` from `init.go`. -/
def markerEnd : Str := "# <<< wt initialize <<<".toList

/-- Configuration block content for bash/zsh, from
`getShellConfigContent` in `init.go`. -/
def posixBlock : Str :=
  markerStart ++ '\n' :: ("eval \"$(wt shellenv)\"".toList ++ '\n' :: markerEnd)

/-- Configuration block content for powershell, from
`getShellConfigContent` in `init.go`. -/
def psBlock : Str :=
  markerStart ++ '\n' :: ("Invoke-Expression (& wt shellenv)".toList ++ '\n' :: markerEnd)

/-- Embedding of `getShellConfigContent` from `init.go`. -/
def getShellConfigContent (shell : Str) : Str :=
  if shell = "bash".toList ∨ shell = "zsh".toList then posixBlock
  else if shell = "powershell".toList then psBlock
  else []

/-- The append path of `installShellConfig` in `init.go`: a newline is
first written when the existing content is nonempty and does not end
with a newline, then `"\n" ++ block ++ "\n"` is appended. -/
def appendBlock (block existing : Str) : Str :=
  existing ++
    (if existing ≠ [] ∧ existing.getLast? ≠ some '\n' then ['\n'] else []) ++
    '\n' :: (block ++ ['\n'])

/-- Content transformation performed by `installShellConfig` in
`init.go` on the configuration file's content: if a well-formed marker
block is present it is replaced in place, otherwise the block is
appended. -/
def installContent (block s : Str) : Str :=
  match strFind markerStart s with
  | none => appendBlock block s
  | some startIdx =>
    match strFind markerEnd s with
    | none => appendBlock block s
    | some endIdx0 =>
      if startIdx < endIdx0 then
        s.take startIdx ++ block ++ s.drop (endIdx0 + markerEnd.length)
      else appendBlock block s

/-- Embedding of `installShellConfig` from `init.go`.  The file is
`none` when it does not exist.  Returns (success, file state after the
call); with `dryRun` no write is performed in either branch of the
source. -/
def installShellConfig (shell : Str) (file : Option Str) (dryRun : Bool) :
    Bool × Option Str :=
  let block := getShellConfigContent shell
  if block = [] then (false, file)
  else if dryRun then (true, file)
  else (true, some (installContent block (file.getD [])))

/-- Embedding of `removeShellConfig` from `init.go`.  Returns
(success, file state after the call).  A missing file or a file without
the start marker is left untouched; malformed markers (end not after
start) produce an error without writing. -/
def removeShellConfig (file : Option Str) (dryRun : Bool) : Bool × Option Str :=
  match file with
  | none => (true, none)
  | some s =>
    match strFind markerStart s with
    | none => (true, some s)
    | some startIdx =>
      match strFind markerEnd s with
      | none => (false, some s)
      | some endIdx0 =>
        if endIdx0 ≤ startIdx then (false, some s)
        else
          let before := s.take startIdx
          let after := s.drop (endIdx0 + markerEnd.length)
          let before2 :=
            if goHasSuffix before ['\n', '\n'] then before.take (before.length - 1)
            else before
          let after2 := goTrimPre after ['\n']
          if dryRun then (true, some s) else (true, some (before2 ++ after2))

/-- `supportedShells` from `init.go`. -/
def supportedShells : List Str :=
  ["bash".toList, "zsh".toList, "powershell".toList, "pwsh".toList]

/-- Embedding of `detectShell` from `init.go`.  `isWindows` stands for
`runtime.GOOS == "windows"`, `shellEnv` for `os.Getenv("SHELL")`. -/
def detectShell (args : List Str) (isWindows : Bool) (shellEnv : Str) : Str :=
  let fallback : Str :=
    if isWindows then "powershell".toList
    else if goContains shellEnv ("zsh".toList) then "zsh".toList
    else if goContains shellEnv ("bash".toList) then "bash".toList
    else "bash".toList
  match args with
  | [] => fallback
  | a :: _ =>
    let sh := a.map Char.toLower
    if supportedShells.contains sh then
      if sh = "pwsh".toList then "powershell".toList else sh
    else fallback

/-- Claim C10: with the dry-run flag set, neither `installShellConfig`
nor `removeShellConfig` changes the configuration file: for every shell
and every initial file state (including a non-existent file) the file
is identical before and after the call. -/
theorem dryRun_preserves_file (shell : Str) (file : Option Str) :
    (installShellConfig shell file true).2 = file ∧
    (removeShellConfig file true).2 = file := by
  constructor
  · unfold installShellConfig
    by_cases h : getShellConfigContent shell = [] <;> simp [h]
  · unfold removeShellConfig
    match file with
    | none => rfl
    | some s =>
      simp only
      cases hs : strFind markerStart s with
      | none => rfl
      | some i =>
        cases he : strFind markerEnd s with
        | none => rfl
        | some j =>
          by_cases hij : j ≤ i <;> simp [hij]

/-- Claim C9: `detectShell` is total and never returns the empty
string: it always yields one of "bash", "zsh", "powershell"; with no
argument it defaults to "powershell" on Windows, and to "bash" on Unix
when `$SHELL` matches neither zsh nor bash. -/
theorem detectShell_total (args : List Str) (isWindows : Bool) (shellEnv : Str) :
    (detectShell args isWindows shellEnv = "bash".toList ∨
      detectShell args isWindows shellEnv = "zsh".toList ∨
      detectShell args isWindows shellEnv = "powershell".toList) ∧
    detectShell args isWindows shellEnv ≠ [] ∧
    detectShell [] true shellEnv = "powershell".toList ∧
    (goContains shellEnv ("zsh".toList) = false →
      goContains shellEnv ("bash".toList) = false →
      detectShell [] false shellEnv = "bash".toList) := by
  have hmain : ∀ (ar : List Str) (w : Bool),
      detectShell ar w shellEnv = "bash".toList ∨
      detectShell ar w shellEnv = "zsh".toList ∨
      detectShell ar w shellEnv = "powershell".toList := by
    intro ar w
    have hz := Bool.eq_false_or_eq_true (goContains shellEnv ['z', 's', 'h'])
    have hb := Bool.eq_false_or_eq_true (goContains shellEnv ['b', 'a', 's', 'h'])
    cases ar with
    | nil =>
      cases w <;> rcases hz with hz | hz <;> rcases hb with hb | hb <;>
        simp [detectShell, hz, hb]
    | cons a rest =>
      by_cases hmem : supportedShells.contains (a.map Char.toLower) = true
      · have hmem' : (a.map Char.toLower) ∈ supportedShells := by
          simpa using hmem
        simp only [supportedShells] at hmem'
        rcases List.mem_cons.mp hmem' with h | hmem' <;>
          [skip; rcases List.mem_cons.mp hmem' with h | hmem'] <;>
          [skip; skip; rcases List.mem_cons.mp hmem' with h | hmem'] <;>
          [skip; skip; skip; rcases List.mem_cons.mp hmem' with h | hmem']
        · cases w <;> rcases hz with hz | hz <;> rcases hb with hb | hb <;>
            simp [detectShell, hz, hb, h, supportedShells]
        · cases w <;> rcases hz with hz | hz <;> rcases hb with hb | hb <;>
            simp [detectShell, hz, hb, h, supportedShells]
        · cases w <;> rcases hz with hz | hz <;> rcases hb with hb | hb <;>
            simp [detectShell, hz, hb, h, supportedShells]
        · cases w <;> rcases hz with hz | hz <;> rcases hb with hb | hb <;>
            simp [detectShell, hz, hb, h, supportedShells]
        · simp at hmem'
      · simp only [Bool.not_eq_true] at hmem
        have hmem' : (a.map Char.toLower) ∉ supportedShells := by
          simpa using hmem
        cases w <;> rcases hz with hz | hz <;> rcases hb with hb | hb <;>
          simp [detectShell, hz, hb, hmem']
  refine ⟨hmain args isWindows, ?_, ?_, ?_⟩
  · rcases hmain args isWindows with h | h | h <;> rw [h] <;> decide
  · rfl
  · intro hz hb
    have hz' : goContains shellEnv ['z', 's', 'h'] = false := hz
    have hb' : goContains shellEnv ['b', 'a', 's', 'h'] = false := hb
    simp [detectShell, hz', hb']

/-- Closed witness for claim C9's theorem at a concrete environment. -/
theorem detectShell_total_witness :
    detectShell [] false ("/bin/sh".toList) = "bash".toList :=
  (detectShell_total [] false ("/bin/sh".toList)).2.2.2 (by decide) (by decide)

/-- Modelled from the spec: the error taxonomy of §7; the implementation
of the core error types is not part of the repository snapshot. -/
inductive WtError where
  | BranchNotFound
  | BranchExists
  | WorktreeExists
  | NameCollision
  | DirtyWorktree
  | NoDefaultBranch
  | BackendUnavailable
deriving DecidableEq, Repr

/-- Modelled from the spec: a worktree is a (branch, path) pair owned by
the versioning backend; `dirty` records whether the working directory
has uncommitted modifications (§3). -/
structure Worktree where
  branch : String
  path : String
  dirty : Bool
deriving DecidableEq, Repr

/-- Modelled from the spec: the state visible through the VCS Gateway —
the backend's branches and linked worktrees, the filesystem directories
present, and the merge-ancestry relation as the set of pairs
(branch, base) with `isMerged branch base` true (§4.2); the gateway
implementation is not part of the repository snapshot. -/
structure RepoState where
  branches : List String
  worktrees : List Worktree
  dirs : List String
  mergedPairs : List (String × String)
deriving DecidableEq, Repr

/-- Modelled from the spec: the Path Resolver, a pure function from
(repository identity, branch name, configured root) to the worktree
directory path `root/<repo-name>/<branch>` (§4.1 and the layout used by
the tests); its implementation is not part of the repository snapshot. -/
def resolve (root repoName branch : String) : String :=
  root ++ "/" ++ repoName ++ "/" ++ branch

/-- Modelled from the spec: `isMerged(branch, base)` of the VCS Gateway,
true iff every commit reachable from `branch` is reachable from `base`;
represented by membership in the state's ancestry relation. -/
def isMerged (s : RepoState) (branch base : String) : Bool :=
  (branch, base) ∈ s.mergedPairs

/-- Modelled from the spec: whether a branch currently has a linked
worktree in the backend. -/
def hasWorktree (s : RepoState) (branch : String) : Bool :=
  (s.worktrees.find? (fun w => w.branch = branch)).isSome

/-- Modelled from the spec: the `remove` operation of the Lifecycle
Manager together with the gateway's `removeWorktree` (§4.3, §4.2):
without `force` a dirty worktree fails with `DirtyWorktree`, surfaced
verbatim; otherwise the backend unlinks the worktree — possibly leaving
a residual empty directory stub when `residualStub` is true — and the
gateway then detects and deletes any remaining directory at the path.
The implementation is not part of the repository snapshot. -/
def removeOp (root repoName : String) (s : RepoState) (branch : String)
    (force residualStub : Bool) : Except WtError RepoState :=
  let path := resolve root repoName branch
  match s.worktrees.find? (fun w => w.path = path) with
  | none => .error .BranchNotFound
  | some w =>
    if w.dirty && !force then .error .DirtyWorktree
    else
      let s1 : RepoState :=
        { s with
          worktrees := s.worktrees.filter (fun v => v.path ≠ path),
          dirs := if residualStub then s.dirs
                  else s.dirs.filter (fun d => d ≠ path) }
      let s2 : RepoState :=
        if path ∈ s1.dirs then
          { s1 with dirs := s1.dirs.filter (fun d => d ≠ path) }
        else s1
      .ok s2

/-- Modelled from the spec: the protected trunk aliases that cleanup
never removes (§4.4 step 3). -/
def protectedBranchNames : List String := ["main", "master"]

/-- Modelled from the spec: `getMergedBranches(base)` of the Cleanup
Engine — list branches, keep those with an existing worktree, keep those
merged into `base`, and exclude the base branch itself and the protected
trunk aliases (§4.4 steps 2–3); the implementation is not part of the
repository snapshot. -/
def getMergedBranches (s : RepoState) (base : String) : List String :=
  ((s.branches.filter (fun b => hasWorktree s b)).filter
      (fun b => isMerged s b base)).filter
    (fun b => b != base && !(protectedBranchNames.contains b))

/-- Modelled from the spec: the per-run report of the Cleanup Engine —
the intended removal set, the number of `removeWorktree` calls
performed, and the per-branch outcomes (§4.4 steps 4–5). -/
structure CleanupReport where
  removalSet : List String
  removeCalls : Nat
  succeeded : List String
  failed : List String
deriving DecidableEq, Repr

/-- Modelled from the spec: the sequential removal loop of the Cleanup
Engine; each removal is attempted independently and a failure does not
abort the batch (§4.4 step 5). Returns (calls, succeeded, failed,
final state). -/
def cleanupExec (root repoName : String) :
    RepoState → List String → Nat × List String × List String × RepoState
  | s, [] => (0, [], [], s)
  | s, b :: rest =>
    match removeOp root repoName s b false false with
    | .ok s1 =>
      let r := cleanupExec root repoName s1 rest
      (r.1 + 1, b :: r.2.1, r.2.2.1, r.2.2.2)
    | .error _ =>
      let r := cleanupExec root repoName s rest
      (r.1 + 1, r.2.1, b :: r.2.2.1, r.2.2.2)

/-- Modelled from the spec: a full cleanup run (§4.4): compute the
removal set; in dry-run mode only report it, performing no
`removeWorktree` call and leaving the state untouched; otherwise remove
each candidate in turn. The implementation is not part of the
repository snapshot. -/
def cleanupRun (root repoName : String) (s : RepoState) (base : String)
    (dryRun : Bool) : CleanupReport × RepoState :=
  let removal := getMergedBranches s base
  if dryRun then
    ({ removalSet := removal, removeCalls := 0, succeeded := [], failed := [] }, s)
  else
    let r := cleanupExec root repoName s removal
    ({ removalSet := removal, removeCalls := r.1, succeeded := r.2.1,
       failed := r.2.2.1 }, r.2.2.2)

/-- Claim C2: the removal set computed by the cleanup engine never
contains the base branch, nor the protected trunk aliases "main" and
"master", whatever the repository state and ancestry relation. -/
theorem getMergedBranches_excludes_base (s : RepoState) (base : String) :
    base ∉ getMergedBranches s base ∧
    "main" ∉ getMergedBranches s base ∧
    "master" ∉ getMergedBranches s base := by
  refine ⟨?_, ?_, ?_⟩ <;> intro h <;>
    simp [getMergedBranches, List.mem_filter, protectedBranchNames] at h

/-- Claim C3: a cleanup dry run reports the same removal set as a real
run intends, performs zero `removeWorktree` calls, and leaves the whole
state — in particular every existing worktree directory — untouched. -/
theorem cleanup_dryRun_frame (root repoName : String) (s : RepoState)
    (base : String) :
    (cleanupRun root repoName s base true).1.removalSet
      = (cleanupRun root repoName s base false).1.removalSet ∧
    (cleanupRun root repoName s base true).1.removeCalls = 0 ∧
    (cleanupRun root repoName s base true).2 = s := by
  refine ⟨?_, rfl, rfl⟩
  simp [cleanupRun]

/-- Claim C1: removing a branch whose worktree is dirty fails with
`DirtyWorktree` when `force` is false (the state is returned unchanged
by the error), while with `force` true the removal succeeds and the
worktree path no longer exists on the filesystem afterwards. -/
theorem remove_dirty_requires_force (root repoName : String) (s : RepoState)
    (branch : String) (residualStub : Bool) (w : Worktree)
    (hw : s.worktrees.find? (fun v => v.path = resolve root repoName branch)
      = some w)
    (hd : w.dirty = true) :
    removeOp root repoName s branch false residualStub
      = .error .DirtyWorktree ∧
    ∃ s', removeOp root repoName s branch true residualStub = .ok s' ∧
      resolve root repoName branch ∉ s'.dirs := by
  constructor
  · simp only [removeOp]
    rw [hw]
    simp [hd]
  · simp only [removeOp]
    rw [hw]
    simp only [hd, Bool.true_and, Bool.not_true, Bool.and_false]
    refine ⟨_, rfl, ?_⟩
    by_cases hmem :
        resolve root repoName branch ∈
          (if residualStub then s.dirs
           else s.dirs.filter (fun d => d ≠ resolve root repoName branch)) <;>
      simp_all [List.mem_filter]

/-- Closed witness for claim C1's theorem: one dirty worktree, removal
refused without force and completed with force. -/
theorem remove_dirty_requires_force_witness :
    removeOp "/r" "repo"
        { branches := ["main", "f"],
          worktrees := [⟨"f", "/r/repo/f", true⟩],
          dirs := ["/r/repo/f"], mergedPairs := [] } "f" false true
      = .error .DirtyWorktree ∧
    ∃ s', removeOp "/r" "repo"
        { branches := ["main", "f"],
          worktrees := [⟨"f", "/r/repo/f", true⟩],
          dirs := ["/r/repo/f"], mergedPairs := [] } "f" true true
      = .ok s' ∧ resolve "/r" "repo" "f" ∉ s'.dirs :=
  remove_dirty_requires_force "/r" "repo"
    { branches := ["main", "f"],
      worktrees := [⟨"f", "/r/repo/f", true⟩],
      dirs := ["/r/repo/f"], mergedPairs := [] } "f" true
    ⟨"f", "/r/repo/f", true⟩ (by decide) (by decide)

/-- Claim C4: whenever the removal succeeds while the backend leaves a
residual empty directory stub behind (`residualStub = true`), the
gateway detects and deletes the stub, so the worktree path does not
exist in the resulting filesystem state. -/
theorem remove_cleans_residual_stub (root repoName : String)
    (s s' : RepoState) (branch : String) (force : Bool)
    (h : removeOp root repoName s branch force true = .ok s') :
    resolve root repoName branch ∉ s'.dirs := by
  simp only [removeOp] at h
  cases hw : s.worktrees.find?
      (fun v => v.path = resolve root repoName branch) with
  | none => rw [hw] at h; exact absurd h (by simp)
  | some w =>
    rw [hw] at h
    simp only [if_true] at h
    by_cases hdf : (w.dirty && !force) = true
    · rw [if_pos hdf] at h
      exact absurd h (by simp)
    · rw [if_neg hdf] at h
      simp only [Except.ok.injEq] at h
      subst h
      by_cases hmem :
          resolve root repoName branch ∈
            (if (true : Bool) then s.dirs
             else s.dirs.filter (fun d => d ≠ resolve root repoName branch)) <;>
        simp_all [List.mem_filter]

/-- Closed witness for claim C4's theorem: a clean worktree removed
while the backend leaves a stub; the path is gone afterwards. -/
theorem remove_cleans_residual_stub_witness :
    resolve "/r" "repo" "g" ∉
      (RepoState.mk ["main", "g"] [] [] []).dirs :=
  remove_cleans_residual_stub "/r" "repo"
    { branches := ["main", "g"],
      worktrees := [⟨"g", "/r/repo/g", false⟩],
      dirs := ["/r/repo/g"], mergedPairs := [] }
    { branches := ["main", "g"], worktrees := [], dirs := [],
      mergedPairs := [] } "g" false (by rfl)

/-- Claim C5: the worktree path is a pure deterministic function of
(repository identity, branch name, root), concretely
`root/<repo-name>/<branch>`, and distinct branch names always resolve
to distinct paths. -/
theorem resolve_deterministic_injective (root repoName b1 b2 : String) :
    resolve root repoName b1 = root ++ "/" ++ repoName ++ "/" ++ b1 ∧
    (b1 ≠ b2 → resolve root repoName b1 ≠ resolve root repoName b2) := by
  refine ⟨rfl, fun hne heq => hne ?_⟩
  have hd := congrArg String.data heq
  simp only [resolve, String.data_append, List.append_assoc] at hd
  have h1 := List.append_cancel_left hd
  have h2 := List.append_cancel_left h1
  have h3 := List.append_cancel_left h2
  have h4 := List.append_cancel_left h3
  exact String.ext h4

/-- Closed witness for claim C5's theorem at two concrete branches. -/
theorem resolve_deterministic_injective_witness :
    resolve "/w" "repo" "feature/x" = "/w" ++ "/" ++ "repo" ++ "/" ++ "feature/x" ∧
    resolve "/w" "repo" "feature/x" ≠ resolve "/w" "repo" "feature/y" :=
  ⟨(resolve_deterministic_injective "/w" "repo" "feature/x" "feature/y").1,
    (resolve_deterministic_injective "/w" "repo" "feature/x" "feature/y").2
      (by decide)⟩

/-- Modelled from the spec: the Shell Handoff sentinel — a fixed prefix
followed by the absolute target path, on its own output line (§4.5);
the emitting code is not part of the repository snapshot. -/
def sentinelMarker : Str := "__wt_cd__:".toList

/-- Modelled from the spec: the sentinel line for a target path. -/
def sentinelLine (path : Str) : Str := sentinelMarker ++ path

/-- Modelled from the spec: how the shell-side wrapper recognizes a
sentinel line. -/
def isSentinelLine (l : Str) : Bool := sentinelMarker.isPrefixOf l

/-- Modelled from the spec: a finished process invocation as the
wrapper sees it — its standard-output lines and its exit code. -/
structure ProcResult where
  stdout : List Str
  exitCode : Nat
deriving DecidableEq, Repr

/-- Modelled from the spec: output emission by the core (§4.5): a
successful directory-changing operation appends the sentinel as the
last output line; failures and read-only commands emit only the
ordinary human-readable lines, and failures exit non-zero. -/
def emitOp (humanLines : List Str) (dirChanging : Bool)
    (outcome : Except WtError Str) : ProcResult :=
  match outcome with
  | .ok path =>
    if dirChanging then ⟨humanLines ++ [sentinelLine path], 0⟩
    else ⟨humanLines, 0⟩
  | .error _ => ⟨humanLines, 1⟩

/-- Modelled from the spec: the shell-side wrapper (§4.5): it strips
sentinel lines from the displayed output, takes the last sentinel (if
any) as the directory-change target, and propagates the wrapped
process's exit code.  Returns (displayed lines, cd target, exit code). -/
def wrapperRun (r : ProcResult) : List Str × Option Str × Nat :=
  (r.stdout.filter (fun l => !(isSentinelLine l)),
   ((r.stdout.filter (fun l => isSentinelLine l)).getLast?).map
     (fun l => l.drop sentinelMarker.length),
   r.exitCode)

/-- A sentinel line is recognized as such. -/
theorem isSentinelLine_sentinelLine (path : Str) :
    isSentinelLine (sentinelLine path) = true := by
  simp only [isSentinelLine, sentinelLine]
  exact List.isPrefixOf_iff_prefix.mpr (List.prefix_append _ _)

/-- Claim C6: on every successful directory-changing operation the
sentinel is the last stdout line; failing operations and read-only
commands emit no sentinel line; the wrapper passes all non-sentinel
output through unchanged, recovers the target path, and exits with the
wrapped process's exit code. -/
theorem shellHandoff_contract (humanLines : List Str) (path : Str)
    (e : WtError) (d : Bool)
    (h : ∀ l ∈ humanLines, isSentinelLine l = false) :
    (emitOp humanLines true (.ok path)).stdout.getLast?
      = some (sentinelLine path) ∧
    (∀ l ∈ (emitOp humanLines d (.error e)).stdout,
      isSentinelLine l = false) ∧
    (emitOp humanLines d (.error e)).exitCode ≠ 0 ∧
    (∀ l ∈ (emitOp humanLines false (.ok path)).stdout,
      isSentinelLine l = false) ∧
    (wrapperRun (emitOp humanLines true (.ok path))).1 = humanLines ∧
    (wrapperRun (emitOp humanLines true (.ok path))).2.1 = some path ∧
    (∀ r : ProcResult, (wrapperRun r).2.2 = r.exitCode) := by
  have h1 : humanLines.filter (fun l => !(isSentinelLine l)) = humanLines :=
    List.filter_eq_self.mpr (fun l hl => by simp [h l hl])
  have h2 : ([sentinelLine path] : List Str).filter
      (fun l => !(isSentinelLine l)) = [] := by
    simp [isSentinelLine_sentinelLine]
  have h3 : humanLines.filter (fun l => isSentinelLine l) = [] :=
    List.filter_eq_nil_iff.mpr (fun l hl => by simp [h l hl])
  refine ⟨?_, ?_, ?_, ?_, ?_, ?_, fun r => rfl⟩
  · simp [emitOp]
  · intro l hl
    simp only [emitOp] at hl
    exact h l hl
  · simp [emitOp]
  · intro l hl
    simp only [emitOp, if_neg (by simp : ¬(false = true))] at hl
    exact h l hl
  · show ((humanLines ++ [sentinelLine path]).filter
      (fun l => !(isSentinelLine l))) = humanLines
    rw [List.filter_append, h1, h2, List.append_nil]
  · show (((humanLines ++ [sentinelLine path]).filter
      (fun l => isSentinelLine l)).getLast?).map
        (fun l => l.drop sentinelMarker.length) = some path
    have h4 : ([sentinelLine path] : List Str).filter
        (fun l => isSentinelLine l) = [sentinelLine path] := by
      simp [isSentinelLine_sentinelLine]
    rw [List.filter_append, h3, h4]
    simp [sentinelLine, List.drop_left]

/-- Closed witness for claim C6's theorem with one ordinary output
line. -/
theorem shellHandoff_contract_witness :
    (emitOp ["created worktree".toList] true (.ok "/w/repo/b".toList)).stdout.getLast?
      = some (sentinelLine "/w/repo/b".toList) ∧
    (wrapperRun (emitOp ["created worktree".toList] true (.ok "/w/repo/b".toList))).1
      = ["created worktree".toList] ∧
    (wrapperRun (emitOp ["created worktree".toList] true (.ok "/w/repo/b".toList))).2.1
      = some ("/w/repo/b".toList) := by
  have hmain := shellHandoff_contract ["created worktree".toList]
    ("/w/repo/b".toList) WtError.DirtyWorktree false (by decide)
  exact ⟨hmain.1, hmain.2.2.2.2.1, hmain.2.2.2.2.2.1⟩

/-- Bridge between the executable `List.isPrefixOf` and the `<+:`
relation. -/
theorem isPrefixOf_iff_pre {p q : Str} : p.isPrefixOf q = true ↔ p <+: q :=
  List.isPrefixOf_iff_prefix

/-- Bridge between the executable `List.isSuffixOf` and the `<:+`
relation. -/
theorem isSuffixOf_iff_suf {p q : Str} : p.isSuffixOf q = true ↔ p <:+ q :=
  List.isSuffixOf_iff_suffix

/-- A pattern no longer than `X` that is a prefix of `X ++ Y` is a
prefix of `X`. -/
theorem pre_of_pre_append {p X Y : Str} (h : p <+: X ++ Y)
    (hlen : p.length ≤ X.length) : p <+: X := by
  have hp := List.prefix_iff_eq_take.mp h
  rw [List.take_append_eq_append_take, Nat.sub_eq_zero_of_le hlen,
    List.take_zero, List.append_nil] at hp
  exact List.prefix_iff_eq_take.mpr hp

/-- A pattern longer than `X` that is a prefix of `X ++ c :: Z` must
contain the junction character `c`. -/
theorem mem_of_pre_append_long {p X : Str} {c : Char} {Z : Str}
    (h : p <+: X ++ c :: Z) (hlen : X.length < p.length) : c ∈ p := by
  have hp := List.prefix_iff_eq_take.mp h
  have hXfull : X.take p.length = X := List.take_of_length_le (le_of_lt hlen)
  have hk : p.length - X.length = (p.length - X.length - 1) + 1 := by omega
  rw [List.take_append_eq_append_take, hXfull, hk, List.take_succ_cons] at hp
  rw [hp]
  exact List.mem_append_right X (List.mem_cons_self c _)

/-- A pattern avoiding `c` is a prefix of `X ++ c :: Z` exactly when it
is a prefix of `X ++ anything` it fits into; in particular, extending
the list beyond the junction cannot create a prefix. -/
theorem isPrefixOf_append_cons_eq {p : Str} (X : Str) {c : Char} {Z : Str}
    (hc : c ∉ p) :
    p.isPrefixOf (X ++ c :: Z) = p.isPrefixOf X := by
  by_cases h : p.isPrefixOf X = true
  · rw [h]
    exact isPrefixOf_iff_pre.mpr
      ((isPrefixOf_iff_pre.mp h).trans (List.prefix_append _ _))
  · have hXf : List.isPrefixOf p X = false := Bool.eq_false_iff.mpr h
    rw [hXf, Bool.eq_false_iff]
    intro h2
    apply h
    have h3 := isPrefixOf_iff_pre.mp h2
    rcases le_or_lt p.length X.length with hle | hlt
    · exact isPrefixOf_iff_pre.mpr (pre_of_pre_append h3 hle)
    · exact absurd (mem_of_pre_append_long h3 hlt) hc

/-- `strFind` over an append whose left part avoids the pattern: the
first occurrence lies in the right part, provided the pattern does not
contain the junction character. -/
theorem strFind_append_cons {p : Str} (X : Str) {c : Char} {Z : Str}
    (hc : c ∉ p) (hX : strFind p X = none) :
    strFind p (X ++ c :: Z) =
      (strFind p (c :: Z)).map (fun n => n + X.length) := by
  induction X with
  | nil =>
    simp only [List.nil_append, List.length_nil]
    cases strFind p (c :: Z) <;> simp
  | cons a X' ih =>
    have hpre : p.isPrefixOf (a :: X') = false := by
      cases hp : p.isPrefixOf (a :: X') with
      | false => rfl
      | true => rw [strFind, hp] at hX; simp at hX
    have hX' : strFind p X' = none := by
      rw [strFind, hpre] at hX
      simpa using hX
    have hpre2 : p.isPrefixOf (a :: (X' ++ c :: Z)) = false := by
      have := isPrefixOf_append_cons_eq (a :: X') (Z := Z) hc
      simpa using this.trans hpre
    rw [List.cons_append, strFind, hpre2, ih hX']
    cases strFind p (c :: Z) <;> simp [Nat.add_assoc]

/-- `strFind` over an append whose left part contains the pattern: the
first occurrence is unchanged, provided the pattern does not contain
the junction character. -/
theorem strFind_append_cons_left {p : Str} (X : Str) {c : Char} {Z : Str}
    {i : Nat} (hc : c ∉ p) (hX : strFind p X = some i) :
    strFind p (X ++ c :: Z) = some i := by
  induction X generalizing i with
  | nil =>
    rw [strFind] at hX
    by_cases hp : p.isPrefixOf ([] : Str) = true
    · rw [hp] at hX
      simp only [if_true] at hX
      have hpnil : p = [] := List.prefix_nil.mp (isPrefixOf_iff_pre.mp hp)
      subst hpnil
      simp only [List.nil_append]
      rw [strFind]
      simpa using hX
    · simp only [Bool.not_eq_true] at hp
      simp [hp] at hX
  | cons a X' ih =>
    by_cases hpre : p.isPrefixOf (a :: X') = true
    · rw [strFind, hpre] at hX
      simp only [if_true] at hX
      have hpre2 : p.isPrefixOf (a :: (X' ++ c :: Z)) = true :=
        isPrefixOf_iff_pre.mpr
          ((isPrefixOf_iff_pre.mp hpre).trans
            (by simp))
      rw [List.cons_append, strFind, hpre2]
      simpa using hX
    · simp only [Bool.not_eq_true] at hpre
      rw [strFind] at hX
      simp only [hpre, if_false] at hX
      rcases Option.map_eq_some'.mp hX with ⟨i', hi', hii⟩
      have hpre2 : p.isPrefixOf (a :: (X' ++ c :: Z)) = false := by
        have h5 := isPrefixOf_append_cons_eq (a :: X') (Z := Z) hc
        rw [List.cons_append] at h5
        rw [h5, hpre]
      rw [List.cons_append, strFind, hpre2]
      simp [ih hi', hii.symm]

/-- `occCount` distributes over an append at a junction character the
pattern avoids. -/
theorem occCount_append_cons {p : Str} (X : Str) {c : Char} {Z : Str}
    (hc : c ∉ p) :
    occCount p (X ++ c :: Z) = occCount p X + occCount p (c :: Z) := by
  induction X with
  | nil => simp [occCount]
  | cons a X' ih =>
    have hind : p.isPrefixOf (a :: (X' ++ c :: Z)) = p.isPrefixOf (a :: X') := by
      have h5 := isPrefixOf_append_cons_eq (a :: X') (Z := Z) hc
      simpa using h5
    rw [List.cons_append]
    have e1 : occCount p (a :: (X' ++ c :: Z)) =
        (if p.isPrefixOf (a :: (X' ++ c :: Z)) then 1 else 0) +
          occCount p (X' ++ c :: Z) := rfl
    have e2 : occCount p (a :: X') =
        (if p.isPrefixOf (a :: X') then 1 else 0) + occCount p X' := rfl
    rw [e1, e2, hind, ih]
    omega

/-- A pattern that does not occur in `X` occurs zero times. -/
theorem occCount_eq_zero_of_none {p X : Str} (hX : strFind p X = none) :
    occCount p X = 0 := by
  induction X with
  | nil => rfl
  | cons a X' ih =>
    have hpre : p.isPrefixOf (a :: X') = false := by
      cases hp : p.isPrefixOf (a :: X') with
      | false => rfl
      | true => rw [strFind, hp] at hX; simp at hX
    have hX' : strFind p X' = none := by
      rw [strFind, hpre] at hX
      simpa using hX
    rw [occCount, hpre, ih hX']
    simp

/-- A nonempty pattern avoiding `c` is not a prefix of `c :: Y`. -/
theorem isPrefixOf_cons_eq_false {p : Str} {c : Char} {Y : Str}
    (hne : p ≠ []) (hc : c ∉ p) : p.isPrefixOf (c :: Y) = false := by
  cases p with
  | nil => exact absurd rfl hne
  | cons a p' =>
    rw [Bool.eq_false_iff]
    intro h
    rcases List.cons_prefix_cons.mp (isPrefixOf_iff_pre.mp h) with ⟨hac, _⟩
    exact hc (hac ▸ List.mem_cons_self a p')

/-- `strFind` steps over a head character the pattern avoids. -/
theorem strFind_cons_shift {p : Str} {c : Char} {Y : Str}
    (hne : p ≠ []) (hc : c ∉ p) :
    strFind p (c :: Y) = (strFind p Y).map (fun n => n + 1) := by
  have e : strFind p (c :: Y) =
      if p.isPrefixOf (c :: Y) then some 0
      else (strFind p Y).map (fun n => n + 1) := by
    cases Y <;> rfl
  rw [e, isPrefixOf_cons_eq_false hne hc]
  simp

/-- `occCount` ignores a head character the pattern avoids. -/
theorem occCount_cons_skip {p : Str} {c : Char} {Y : Str}
    (hne : p ≠ []) (hc : c ∉ p) :
    occCount p (c :: Y) = occCount p Y := by
  have e : occCount p (c :: Y) =
      (if p.isPrefixOf (c :: Y) then 1 else 0) + occCount p Y := rfl
  rw [e, isPrefixOf_cons_eq_false hne hc]
  simp

/-- Take distributes over an append past the left part. -/
theorem take_append_add (C T : Str) (k : Nat) :
    (C ++ T).take (C.length + k) = C ++ T.take k := by
  rw [List.take_append_eq_append_take,
    List.take_of_length_le (by omega), Nat.add_sub_cancel_left]

/-- Drop distributes over an append past the left part. -/
theorem drop_append_add (C T : Str) (k : Nat) :
    (C ++ T).drop (C.length + k) = T.drop k := by
  rw [List.drop_append_eq_append_drop,
    List.drop_eq_nil_of_le (by omega), Nat.add_sub_cancel_left,
    List.nil_append]

/-- Absence of a substring, stated through the Go `Contains`. -/
theorem goContains_eq_false_iff {s p : Str} :
    goContains s p = false ↔ strFind p s = none := by
  unfold goContains
  cases strFind p s <;> simp

/-- The newline character occurs in neither marker. -/
theorem nl_not_mem_markers : '\n' ∉ markerStart ∧ '\n' ∉ markerEnd := by decide

/-- The markers are nonempty. -/
theorem markers_ne_nil : markerStart ≠ [] ∧ markerEnd ≠ [] := by decide

/-- The marker positions and counts of the posix configuration block. -/
theorem posixBlock_facts :
    strFind markerStart posixBlock = some 0 ∧
    occCount markerStart posixBlock = 1 ∧
    strFind markerEnd posixBlock
      = some (posixBlock.length - markerEnd.length) ∧
    occCount markerEnd posixBlock = 1 ∧
    markerEnd.length < posixBlock.length := by
  refine ⟨?_, ?_, ?_, ?_, ?_⟩ <;> decide

/-- The marker positions and counts of the powershell configuration
block. -/
theorem psBlock_facts :
    strFind markerStart psBlock = some 0 ∧
    occCount markerStart psBlock = 1 ∧
    strFind markerEnd psBlock = some (psBlock.length - markerEnd.length) ∧
    occCount markerEnd psBlock = 1 ∧
    markerEnd.length < psBlock.length := by
  refine ⟨?_, ?_, ?_, ?_, ?_⟩ <;> decide

/-- Layout of a configuration file produced by the append path: where
the markers sit in `C ++ pad ++ "\n" ++ W ++ "\n"`, how often they
occur, and the two splits used by the update and removal paths, for a
marker-free original content `C`. -/
theorem block_layout (W C pad : Str)
    (hpad : pad = [] ∨ pad = ['\n'])
    (hWs : strFind markerStart W = some 0)
    (hWso : occCount markerStart W = 1)
    (hWe : strFind markerEnd W = some (W.length - markerEnd.length))
    (hWeo : occCount markerEnd W = 1)
    (hCs : strFind markerStart C = none)
    (hCe : strFind markerEnd C = none) :
    strFind markerStart (C ++ (pad ++ '\n' :: (W ++ ['\n'])))
      = some (C.length + (pad.length + 1)) ∧
    strFind markerEnd (C ++ (pad ++ '\n' :: (W ++ ['\n'])))
      = some (C.length + (pad.length + 1 + (W.length - markerEnd.length))) ∧
    occCount markerStart (C ++ (pad ++ '\n' :: (W ++ ['\n']))) = 1 ∧
    occCount markerEnd (C ++ (pad ++ '\n' :: (W ++ ['\n']))) = 1 ∧
    (C ++ (pad ++ '\n' :: (W ++ ['\n']))).take (C.length + (pad.length + 1))
      = C ++ pad ++ ['\n'] ∧
    (C ++ (pad ++ '\n' :: (W ++ ['\n']))).drop
        (C.length + (pad.length + 1 + W.length)) = ['\n'] := by
  obtain ⟨hnlS, hnlE⟩ := nl_not_mem_markers
  obtain ⟨hneS, hneE⟩ := markers_ne_nil
  have hS1 : strFind markerStart (W ++ ['\n']) = some 0 :=
    strFind_append_cons_left W hnlS hWs
  have hE1 : strFind markerEnd (W ++ ['\n'])
      = some (W.length - markerEnd.length) :=
    strFind_append_cons_left W hnlE hWe
  have hSo1 : occCount markerStart (W ++ ['\n']) = 1 := by
    rw [occCount_append_cons W hnlS, hWso, occCount_cons_skip hneS hnlS]
    rfl
  have hEo1 : occCount markerEnd (W ++ ['\n']) = 1 := by
    rw [occCount_append_cons W hnlE, hWeo, occCount_cons_skip hneE hnlE]
    rfl
  rcases hpad with hp | hp <;> subst hp
  · simp only [List.nil_append, List.length_nil, Nat.zero_add]
    refine ⟨?_, ?_, ?_, ?_, ?_, ?_⟩
    · rw [strFind_append_cons C hnlS hCs, strFind_cons_shift hneS hnlS, hS1]
      simp only [Option.map_some']
      exact congrArg some (by omega)
    · rw [strFind_append_cons C hnlE hCe, strFind_cons_shift hneE hnlE, hE1]
      simp only [Option.map_some']
      exact congrArg some (by omega)
    · rw [occCount_append_cons C hnlS, occCount_eq_zero_of_none hCs,
        occCount_cons_skip hneS hnlS, hSo1]
    · rw [occCount_append_cons C hnlE, occCount_eq_zero_of_none hCe,
        occCount_cons_skip hneE hnlE, hEo1]
    · rw [take_append_add C _ 1]
      simp
    · rw [drop_append_add C _ (1 + W.length), Nat.add_comm 1 W.length,
        List.drop_succ_cons, List.drop_left]
  · simp only [List.length_cons, List.length_nil, Nat.zero_add]
    have hassoc : C ++ (['\n'] ++ '\n' :: (W ++ ['\n']))
        = C ++ '\n' :: ('\n' :: (W ++ ['\n'])) := by simp
    refine ⟨?_, ?_, ?_, ?_, ?_, ?_⟩
    · rw [hassoc, strFind_append_cons C hnlS hCs,
        strFind_cons_shift hneS hnlS, strFind_cons_shift hneS hnlS, hS1]
      simp only [Option.map_some']
      exact congrArg some (by omega)
    · rw [hassoc, strFind_append_cons C hnlE hCe,
        strFind_cons_shift hneE hnlE, strFind_cons_shift hneE hnlE, hE1]
      simp only [Option.map_some']
      exact congrArg some (by omega)
    · rw [hassoc, occCount_append_cons C hnlS, occCount_eq_zero_of_none hCs,
        occCount_cons_skip hneS hnlS, occCount_cons_skip hneS hnlS, hSo1]
    · rw [hassoc, occCount_append_cons C hnlE, occCount_eq_zero_of_none hCe,
        occCount_cons_skip hneE hnlE, occCount_cons_skip hneE hnlE, hEo1]
    · rw [show (1 : Nat) + 1 = 2 from rfl, take_append_add C _ 2]
      simp [List.take_succ_cons]
    · rw [drop_append_add C _ (1 + 1 + W.length)]
      simp only [List.singleton_append]
      rw [show (1 : Nat) + 1 + W.length = (W.length + 1) + 1 by omega,
        List.drop_succ_cons, List.drop_succ_cons, List.drop_left]

/-- With no start marker present, `installShellConfig` takes the append
path. -/
theorem installContent_of_no_marker (W C : Str)
    (hCs : strFind markerStart C = none) :
    installContent W C = appendBlock W C := by
  unfold installContent
  rw [hCs]

/-- With a well-formed marker block present, `installShellConfig`
replaces it in place. -/
theorem installContent_of_update (W s : Str) {i j : Nat}
    (hi : strFind markerStart s = some i)
    (hj : strFind markerEnd s = some j) (hij : i < j) :
    installContent W s = s.take i ++ W ++ s.drop (j + markerEnd.length) := by
  unfold installContent
  rw [hi, hj]
  simp only [if_pos hij]

/-- The append path written as one right-nested append. -/
theorem appendBlock_assoc (W C : Str) :
    appendBlock W C
      = C ++ ((if C ≠ [] ∧ C.getLast? ≠ some '\n' then ['\n'] else [])
          ++ '\n' :: (W ++ ['\n'])) := by
  unfold appendBlock
  rw [List.append_assoc]

/-- Core idempotency of the install transformation on marker-free
content, for any block `W` shaped like the wt configuration blocks:
installing twice equals installing once, and exactly one block is
present afterwards. -/
theorem installContent_idem_core (W C : Str)
    (hWs : strFind markerStart W = some 0)
    (hWso : occCount markerStart W = 1)
    (hWe : strFind markerEnd W = some (W.length - markerEnd.length))
    (hWeo : occCount markerEnd W = 1)
    (hWlen : markerEnd.length < W.length)
    (hCs : strFind markerStart C = none)
    (hCe : strFind markerEnd C = none) :
    installContent W (installContent W C) = installContent W C ∧
    occCount markerStart (installContent W C) = 1 ∧
    occCount markerEnd (installContent W C) = 1 := by
  have hR : installContent W C
      = C ++ ((if C ≠ [] ∧ C.getLast? ≠ some '\n' then ['\n'] else [])
          ++ '\n' :: (W ++ ['\n'])) := by
    rw [installContent_of_no_marker W C hCs, appendBlock_assoc]
  have hpad : (if C ≠ [] ∧ C.getLast? ≠ some '\n' then ['\n'] else []) = []
      ∨ (if C ≠ [] ∧ C.getLast? ≠ some '\n' then ['\n'] else []) = ['\n'] := by
    by_cases hcond : C ≠ [] ∧ C.getLast? ≠ some '\n'
    · right; rw [if_pos hcond]
    · left; rw [if_neg hcond]
  obtain ⟨hfS, hfE, hoS, hoE, htake, hdrop⟩ :=
    block_layout W C _ hpad hWs hWso hWe hWeo hCs hCe
  refine ⟨?_, ?_, ?_⟩
  · rw [hR]
    rw [installContent_of_update W _ hfS hfE (by omega)]
    rw [show C.length
          + ((if C ≠ [] ∧ C.getLast? ≠ some '\n' then ['\n'] else []).length
            + 1 + (W.length - markerEnd.length)) + markerEnd.length
        = C.length
          + ((if C ≠ [] ∧ C.getLast? ≠ some '\n' then ['\n'] else []).length
            + 1 + W.length) from by omega]
    rw [htake, hdrop]
    simp
  · rw [hR, hoS]
  · rw [hR, hoE]

/-- The shells supported by `wt init` map to a nonempty configuration
block. -/
theorem getShellConfigContent_of_supported (sh : Str)
    (hsh : sh = "bash".toList ∨ sh = "zsh".toList ∨ sh = "powershell".toList) :
    getShellConfigContent sh = posixBlock ∨
    getShellConfigContent sh = psBlock := by
  rcases hsh with h | h | h <;> subst h
  · left; rfl
  · left; rfl
  · right; rfl

/-- A non-dry-run install always writes the transformed content. -/
theorem installShellConfig_step (sh : Str)
    (hne : getShellConfigContent sh ≠ []) (g : Option Str) :
    installShellConfig sh g false
      = (true, some (installContent (getShellConfigContent sh) (g.getD []))) := by
  unfold installShellConfig
  rw [if_neg hne]
  simp

/-- Claim C7 (amended): for every shell among bash, zsh and powershell
and every initial configuration-file state whose content contains
neither marker string, running `installShellConfig` twice yields the
same file content as running it once, and the result contains exactly
one marker-delimited wt configuration block.  (The restriction to
marker-free initial content is forced: a file already containing a
stray end marker defeats the update detection, see the
counterexample.) -/
theorem installShellConfig_idempotent (sh : Str) (f : Option Str)
    (hsh : sh = "bash".toList ∨ sh = "zsh".toList ∨ sh = "powershell".toList)
    (h1 : goContains (f.getD []) markerStart = false)
    (h2 : goContains (f.getD []) markerEnd = false) :
    installShellConfig sh (installShellConfig sh f false).2 false
      = installShellConfig sh f false ∧
    occCount markerStart ((installShellConfig sh f false).2.getD []) = 1 ∧
    occCount markerEnd ((installShellConfig sh f false).2.getD []) = 1 := by
  have hCs := goContains_eq_false_iff.mp h1
  have hCe := goContains_eq_false_iff.mp h2
  have hblock := getShellConfigContent_of_supported sh hsh
  have hne : getShellConfigContent sh ≠ [] := by
    rcases hblock with h | h <;> rw [h] <;> decide
  have hstep := installShellConfig_step sh hne
  rcases hblock with hb | hb
  · rw [hb] at hstep
    obtain ⟨hW1, hW2, hW3, hW4, hW5⟩ := posixBlock_facts
    obtain ⟨hidem, hoS, hoE⟩ :=
      installContent_idem_core posixBlock (f.getD []) hW1 hW2 hW3 hW4 hW5
        hCs hCe
    refine ⟨?_, ?_, ?_⟩
    · simp only [hstep, Option.getD_some]
      rw [hidem]
    · simp only [hstep, Option.getD_some]
      exact hoS
    · simp only [hstep, Option.getD_some]
      exact hoE
  · rw [hb] at hstep
    obtain ⟨hW1, hW2, hW3, hW4, hW5⟩ := psBlock_facts
    obtain ⟨hidem, hoS, hoE⟩ :=
      installContent_idem_core psBlock (f.getD []) hW1 hW2 hW3 hW4 hW5
        hCs hCe
    refine ⟨?_, ?_, ?_⟩
    · simp only [hstep, Option.getD_some]
      rw [hidem]
    · simp only [hstep, Option.getD_some]
      exact hoS
    · simp only [hstep, Option.getD_some]
      exact hoE

/-- Counterexample to claim C7 as stated: for an initial content that
already holds a stray end marker, installing twice does not equal
installing once (the second run appends a second block). -/
theorem installShellConfig_not_idempotent :
    installShellConfig ("bash".toList)
        (installShellConfig ("bash".toList) (some markerEnd) false).2 false
      ≠ installShellConfig ("bash".toList) (some markerEnd) false := by
  decide

/-- Closed witness for claim C7's amended theorem on a small
marker-free bash configuration. -/
theorem installShellConfig_idempotent_witness :
    installShellConfig ("bash".toList)
        (installShellConfig ("bash".toList) (some ("export A=1\n".toList))
          false).2 false
      = installShellConfig ("bash".toList) (some ("export A=1\n".toList))
          false ∧
    occCount markerStart
      ((installShellConfig ("bash".toList) (some ("export A=1\n".toList))
        false).2.getD []) = 1 ∧
    occCount markerEnd
      ((installShellConfig ("bash".toList) (some ("export A=1\n".toList))
        false).2.getD []) = 1 :=
  installShellConfig_idempotent ("bash".toList) (some ("export A=1\n".toList))
    (Or.inl rfl) (by decide) (by decide)

/-- With a well-formed marker block present, a non-dry-run
`removeShellConfig` excises it, trimming the separating newlines it had
added. -/
theorem removeShellConfig_of_found (s : Str) {i j : Nat}
    (hi : strFind markerStart s = some i)
    (hj : strFind markerEnd s = some j) (hij : i < j) :
    removeShellConfig (some s) false
      = (true, some ((if goHasSuffix (s.take i) ['\n', '\n']
            then (s.take i).take ((s.take i).length - 1) else s.take i)
          ++ goTrimPre (s.drop (j + markerEnd.length)) ['\n'])) := by
  unfold removeShellConfig
  simp only []
  rw [hi, hj]
  simp only [if_neg (by omega : ¬ j ≤ i)]
  simp

/-- Removing directly after installing restores any marker-free content
that ends in a newline, at the level of file contents. -/
theorem remove_after_install_core (W C : Str)
    (hWs : strFind markerStart W = some 0)
    (hWso : occCount markerStart W = 1)
    (hWe : strFind markerEnd W = some (W.length - markerEnd.length))
    (hWeo : occCount markerEnd W = 1)
    (hWlen : markerEnd.length < W.length)
    (hCs : strFind markerStart C = none)
    (hCe : strFind markerEnd C = none)
    (hlast : ['\n'] <:+ C) :
    removeShellConfig (some (installContent W C)) false = (true, some C) := by
  obtain ⟨C0, hC0⟩ := hlast
  have hpadnil :
      (if C ≠ [] ∧ C.getLast? ≠ some '\n' then ['\n'] else []) = [] := by
    rw [if_neg]
    rintro ⟨-, h2⟩
    exact h2 (by rw [← hC0]; exact List.getLast?_concat C0)
  have hR : installContent W C = C ++ ([] ++ '\n' :: (W ++ ['\n'])) := by
    rw [installContent_of_no_marker W C hCs, appendBlock_assoc, hpadnil]
  obtain ⟨hfS, hfE, -, -, htake, hdrop⟩ :=
    block_layout W C [] (Or.inl rfl) hWs hWso hWe hWeo hCs hCe
  simp only [List.nil_append, List.append_nil, List.length_nil,
    Nat.zero_add] at hR hfS hfE htake hdrop
  rw [hR, removeShellConfig_of_found _ hfS hfE (by omega)]
  rw [show C.length + (1 + (W.length - markerEnd.length)) + markerEnd.length
      = C.length + (1 + W.length) from by omega]
  rw [htake, hdrop]
  have hsuf : goHasSuffix (C ++ ['\n']) ['\n', '\n'] = true := by
    unfold goHasSuffix
    rw [isSuffixOf_iff_suf]
    exact ⟨C0, by rw [← hC0]; simp⟩
  rw [hsuf]
  simp only [if_true]
  have hlen : (C ++ ['\n']).length - 1 = C.length := by simp
  rw [hlen, List.take_left, show goTrimPre ['\n'] ['\n'] = [] from rfl,
    List.append_nil]

/-- Claim C8 (amended): for every shell among bash, zsh and powershell
and every marker-free initial configuration content that ends in a
newline, installing and then uninstalling (both non-dry-run) restores
the file content exactly.  (The trailing-newline restriction is forced:
for content not ending in a newline the round trip appends one, see the
counterexample.) -/
theorem install_remove_roundtrip (sh : Str) (C : Str)
    (hsh : sh = "bash".toList ∨ sh = "zsh".toList ∨ sh = "powershell".toList)
    (h1 : goContains C markerStart = false)
    (h2 : goContains C markerEnd = false)
    (h3 : ['\n'] <:+ C) :
    removeShellConfig (installShellConfig sh (some C) false).2 false
      = (true, some C) := by
  have hCs := goContains_eq_false_iff.mp h1
  have hCe := goContains_eq_false_iff.mp h2
  have hblock := getShellConfigContent_of_supported sh hsh
  have hne : getShellConfigContent sh ≠ [] := by
    rcases hblock with h | h <;> rw [h] <;> decide
  rw [installShellConfig_step sh hne (some C)]
  simp only [Option.getD_some]
  rcases hblock with hb | hb <;> rw [hb]
  · obtain ⟨hW1, hW2, hW3, hW4, hW5⟩ := posixBlock_facts
    exact remove_after_install_core posixBlock C hW1 hW2 hW3 hW4 hW5
      hCs hCe h3
  · obtain ⟨hW1, hW2, hW3, hW4, hW5⟩ := psBlock_facts
    exact remove_after_install_core psBlock C hW1 hW2 hW3 hW4 hW5
      hCs hCe h3

/-- Counterexample to claim C8 as stated: marker-free content without a
trailing newline is not restored exactly — the round trip appends a
newline ("abc" becomes "abc\n"). -/
theorem install_remove_not_roundtrip :
    (removeShellConfig
        (installShellConfig ("bash".toList) (some ("abc".toList)) false).2
        false).2
      ≠ some ("abc".toList) := by
  decide

/-- Closed witness for claim C8's amended theorem on a small bash
configuration ending in a newline. -/
theorem install_remove_roundtrip_witness :
    removeShellConfig
        (installShellConfig ("bash".toList) (some ("# mine\n".toList))
          false).2 false
      = (true, some ("# mine\n".toList)) :=
  install_remove_roundtrip ("bash".toList) ("# mine\n".toList) (Or.inl rfl)
    (by decide) (by decide) ⟨"# mine".toList, rfl⟩
